import Mathlib

/-!
Shallow embedding of the core of google/page-alloc-bench (kernel module,
syscall wrappers, reservoir sampler, kallocfree workload engine), translated
from the sources under kmod/page_alloc_bench.c, userspace/linux/linux.go,
userspace/sampling/sampling.go, userspace/kmod/kmod.go and
userspace/workload/kallocfree/kallocfree.go, together with theorems settling
the specification claims C1 to C10.

Conventions: Go slices become lists, machine integers become Nat or Int
(with explicit wrapping only where overflow is reachable), the wall clock and
the PRNG output stream are explicit inputs, and fallible Go functions return
Option.
-/

set_option maxHeartbeats 1000000
set_option maxRecDepth 2000

/-- Helper: in-place update of one list element, `l[i] = f l[i]`
(out-of-range indices leave the list unchanged; all uses are in range). -/
def listModify {α : Type} : List α → Nat → (α → α) → List α
  | [], _, _ => []
  | a :: as, 0, f => f a :: as
  | a :: as, i + 1, f => a :: listModify as i f

/-! ## sampling.go — reservoir sampler -/

/-- State of the `math/rand.Rand` held by a `sampling.Reservoir`: the seed
that was passed to `rand.NewSource`, the stream of non-negative values that
successive `rand.Int()` calls will return, and how many have been consumed.
The map from seed to output stream is Go library code, abstracted below as
an explicit `source` argument to `NewReservoir`. -/
structure RandState where
  seed : Int
  stream : Nat → Nat
  pos : Nat

/-- Embedding of `sampling.Reservoir`: the fixed-size output slice
`outSamples` (its length is the capacity K), the count `numInSamples` of
items passed to `Add`, and the PRNG. -/
structure Reservoir (T : Type) where
  outSamples : List T
  numInSamples : Nat
  rand : RandState

/-- Embedding of `sampling.NewReservoir`. The Go code seeds the generator
with `rand.NewSource(time.Now().UnixNano())`; the wall-clock reading is the
explicit argument `nowUnixNano`, and `source` stands for the Go library map
from a seed to the `rand.Int()` output stream. `make([]T, size)` zero-fills,
modelled with `default`. -/
def NewReservoir (T : Type) [Inhabited T] (source : Int → Nat → Nat)
    (size : Nat) (nowUnixNano : Int) : Reservoir T :=
  { outSamples := List.replicate size default
    numInSamples := 0
    rand := { seed := nowUnixNano, stream := source nowUnixNano, pos := 0 } }

/-- Embedding of `(*Reservoir).Add`: until the sample is full, append (write
slot `numInSamples`); afterwards draw `rand.Int() % numInSamples` (with
`numInSamples` already incremented, so the modulus for the i-th 0-indexed
item is `i+1`) and overwrite that slot if it is below the capacity, else
drop the item. `rand.Int()` is consumed only on the full path, as in Go. -/
def Reservoir.Add {T : Type} (r : Reservoir T) (datum : T) : Reservoir T :=
  let outIdx := r.numInSamples
  let n := r.numInSamples + 1
  if outIdx ≥ r.outSamples.length then
    let v := r.rand.stream r.rand.pos
    let rnd := { r.rand with pos := r.rand.pos + 1 }
    let j := v % n
    if j ≥ r.outSamples.length then
      { r with numInSamples := n, rand := rnd }
    else
      { r with outSamples := r.outSamples.set j datum, numInSamples := n, rand := rnd }
  else
    { r with outSamples := r.outSamples.set outIdx datum, numInSamples := n }

/-- Embedding of `(*Reservoir).Samples`: the populated prefix
`outSamples[:min(numInSamples, len(outSamples))]`. -/
def Reservoir.Samples {T : Type} (r : Reservoir T) : List T :=
  r.outSamples.take (min r.numInSamples r.outSamples.length)

/-- Feeding a whole stream of observations to `Add`, in order. -/
def addAll {T : Type} (r : Reservoir T) (xs : List T) : Reservoir T :=
  xs.foldl Reservoir.Add r

/-! ## linux.go — syscall wrappers -/

/-- Embedding of `linux.NewCPUMask`. A `CPUMask` is a slice of uint64 words
read as a CPU bitmask by `sched_setaffinity`. Faithful to the Go loop
`for cpu, _ := range cpus`, whose loop variable ranges over the INDICES
0, 1, ... of the argument slice, not over its elements. `slices.Max`
becomes a fold (the Go code panics on an empty argument; no caller passes
one). Word values stay below 2^64 because each or-ed bit is below 2^64. -/
def NewCPUMask (cpus : List Nat) : List Nat :=
  let maxCPU := cpus.foldl max 0
  let words := List.replicate (maxCPU / 64 + 1) 0
  (List.range cpus.length).foldl
    (fun mask cpu => listModify mask (cpu / 64) (fun w => w ||| (1 <<< (cpu % 64))))
    words

/-- Character class of `unicode.IsSpace` restricted to ASCII, as consumed by
`strings.TrimSpace` on sysfs cpulist content. -/
def isGoSpace (c : Char) : Bool :=
  c = ' ' || c = '\t' || c = '\n' || c.toNat = 11 || c.toNat = 12 || c = '\r'

/-- Embedding of `strings.TrimSpace` (ASCII whitespace). -/
def trimSpace (s : List Char) : List Char :=
  ((s.dropWhile isGoSpace).reverse.dropWhile isGoSpace).reverse

/-- Embedding of `strings.Split(s, ",")`. -/
def splitComma : List Char → List (List Char)
  | [] => [[]]
  | c :: rest =>
    if c = ',' then [] :: splitComma rest
    else
      match splitComma rest with
      | [] => [[c]]
      | p :: ps => (c :: p) :: ps

/-- Embedding of `strings.Cut(part, "-")`: split at the first dash, or
`none` when there is no dash (`didCut == false`). -/
def cutDash : List Char → Option (List Char × List Char)
  | [] => none
  | c :: rest =>
    if c = '-' then some ([], rest)
    else (cutDash rest).map (fun p => (c :: p.1, p.2))

/-- Numeric value of an ASCII digit. -/
def digitVal (c : Char) : Option Nat :=
  if '0' ≤ c && c ≤ '9' then some (c.toNat - '0'.toNat) else none

/-- Value of a non-empty all-digit string. -/
def digitsVal (cs : List Char) : Option Nat :=
  if cs.isEmpty then none
  else
    cs.foldl
      (fun acc c => do
        let a ← acc
        let d ← digitVal c
        pure (a * 10 + d))
      (some 0)

/-- Embedding of `strconv.Atoi`: optional sign followed by one or more
digits; anything else is an error (overflow is not reachable here). -/
def goAtoi : List Char → Option Int
  | '+' :: rest => (digitsVal rest).map Int.ofNat
  | '-' :: rest => (digitsVal rest).map (fun n => -(Int.ofNat n))
  | cs => (digitsVal cs).map Int.ofNat

/-- Go conversion `uint64(i)` for the `int` values appended by
`CPUMaskFromString` (wraps negatives modulo 2^64). -/
def toUInt64Val (i : Int) : Nat := (i % (2 ^ 64 : Int)).toNat

/-- The ints produced by Go `for i := fromInt; i <= toInt; i++`. -/
def rangeIncl (lo hi : Int) : List Int :=
  (List.range (hi + 1 - lo).toNat).map (fun k => lo + k)

/-- Embedding of `linux.CPUMaskFromString`: trim, split on commas, and for
each segment either expand an `a-b` range or parse a singleton, APPENDING
each CPU id as a word of the result slice (the function builds a list of
ids, not a bitmask; its one caller, `kallocfree.New`, iterates the result
as a list of ids). `none` models the error returns. -/
def CPUMaskFromString (s : List Char) : Option (List Nat) :=
  (splitComma (trimSpace s)).foldl
    (fun acc part => do
      let mask ← acc
      match cutDash part with
      | some (fromS, toS) => do
          let fromInt ← goAtoi fromS
          let toInt ← goAtoi toS
          pure (mask ++ (rangeIncl fromInt toInt).map toUInt64Val)
      | none => do
          let cpu ← goAtoi part
          pure (mask ++ [toUInt64Val cpu]))
    (some [])

/-- Leftmost match attempt of the pattern `node([0-9+])` anchored at the
head of the string: the literal `node` followed by ONE character of the
class `[0-9+]` (a digit or a plus sign — the Go pattern is `[0-9+]`, a
single-character class, not `[0-9]+`). Returns the captured character. -/
def matchNodeHere : List Char → Option Char
  | 'n' :: 'o' :: 'd' :: 'e' :: c :: _ =>
    if ('0' ≤ c && c ≤ '9') || c = '+' then some c else none
  | _ => none

/-- Leftmost-first search of `nodeSubdirRegexp.FindStringSubmatch`,
returning the single captured character when the pattern matches anywhere. -/
def findNodeMatch : List Char → Option Char
  | [] => none
  | c :: rest =>
    match matchNodeHere (c :: rest) with
    | some d => some d
    | none => findNodeMatch rest

/-- Overwriting insert into the Go map `map[int]CPUMask`. -/
def setAssoc (m : List (Nat × List Nat)) (k : Nat) (v : List Nat) :
    List (Nat × List Nat) :=
  if m.any (fun p => p.1 = k) then
    m.map (fun p => if p.1 = k then (k, v) else p)
  else m ++ [(k, v)]

/-- Embedding of `linux.NUMANodes`. The sysfs directory listing is the
explicit input: a list of (entry name, content of that entry's `cpulist`
file). Entries not matched by the regex are skipped; a captured character
that `strconv.Atoi` rejects hits `log.Fatal` and a failed cpulist parse
returns an error, both modelled as `none`. -/
def NUMANodes (dirs : List (List Char × List Char)) :
    Option (List (Nat × List Nat)) :=
  dirs.foldl
    (fun acc entry => do
      let m ← acc
      match findNodeMatch entry.1 with
      | none => pure m
      | some d =>
        match goAtoi [d] with
        | none => none
        | some nodeID =>
          match CPUMaskFromString entry.2 with
          | none => none
          | some mask => pure (setAssoc m nodeID.toNat mask))
    (some [])

/-! ## kmod/page_alloc_bench.c — kernel module -/

/-- Embedding of `struct alloced_page`, the record the module writes at the
start of each allocated block: the block's opaque id (its `struct page`
address in the C code), the allocation order, and the back-reference
`ap->aps` to the owning per-CPU list, kept as that CPU's index. -/
structure AllocedPage where
  id : Nat
  order : Nat
  apsCpu : Nat
deriving DecidableEq

/-- State of the kernel module: the per-CPU outstanding lists
(`DEFINE_PER_CPU(struct alloced_pages, alloced_pages)`) and a ghost count
`heldPages` of 4KiB pages currently obtained from `alloc_pages` and not yet
given back (an order-o block is 2^o pages). Spinlocks serialise every list
access in the C code, so the interleaving-free state is faithful. -/
structure KmodState where
  alloced_pages : List (List AllocedPage)
  heldPages : Nat
deriving DecidableEq

/-- Embedding of `alloced_pages_init` for a machine with `n` possible CPUs:
every per-CPU list starts empty. -/
def allocedPagesStart (n : Nat) : KmodState :=
  { alloced_pages := List.replicate n [], heldPages := 0 }

/-- Embedding of the successful ALLOC_PAGE ioctl path: `alloc_pages` hands
out an order-`order` block (`heldPages` grows by 2^order), the allocation
is timed (the elapsed monotonic nanoseconds are the explicit input
`elapsedNs`), and `alloced_page_store` prepends (`list_add`) the record to
the current CPU's list with the back-reference set, under `get_cpu` so the
CPU read and the list match. Returns the new state and the ioctl result
`(id, latency_ns)`. -/
def pabIoctlAllocPage (s : KmodState) (cpu order id : Nat) (elapsedNs : Int) :
    KmodState × Nat × Int :=
  ( { alloced_pages :=
        listModify s.alloced_pages cpu
          (fun l => { id := id, order := order, apsCpu := cpu } :: l)
      heldPages := s.heldPages + 2 ^ order },
    id, elapsedNs )

/-- Embedding of `pab_ioctl_free_page`: look the record up from the page
(`alloced_page_get`), unlink it from its owning list via the back-reference
(`alloced_page_remove`), then time `__free_pages(page, ap->order)` — the
block goes back to the allocator at its stored order — and return
`ktime_to_ns(ktime_sub(ktime_get(), start)) + 123` as the latency. The
elapsed monotonic nanoseconds of the timed free are the input `elapsedNs`;
an id that is not on any list is rejected (`none`). -/
def pab_ioctl_free_page (s : KmodState) (id : Nat) (elapsedNs : Int) :
    Option (KmodState × Int) :=
  match (s.alloced_pages.flatten.find? (fun ap => ap.id == id)) with
  | none => none
  | some ap =>
    some
      ( { alloced_pages :=
            listModify s.alloced_pages ap.apsCpu
              (List.eraseP (fun q => q.id == ap.id))
          heldPages := s.heldPages - 2 ^ ap.order },
        elapsedNs + 123 )

/-- Embedding of `alloced_pages_free_all`, the module-exit drain: every
per-CPU list is walked, each record is unlinked and its block is released
with `__free_page(virt_to_page(ap))` — a single order-0 page, 2^0 = 1 page
per block, whatever `ap.order` says. Returns the drained state and the list
of frees performed as (id, order-freed-at) pairs. -/
def alloced_pages_free_all (s : KmodState) : KmodState × List (Nat × Nat) :=
  ( { alloced_pages := List.replicate s.alloced_pages.length []
      heldPages := s.heldPages - s.alloced_pages.flatten.length },
    s.alloced_pages.flatten.map (fun ap => (ap.id, 0)) )

/-- Embedding of `pab_exit`: `proc_remove` (no ioctls afterwards), then the
drain. -/
def pab_exit (s : KmodState) : KmodState × List (Nat × Nat) :=
  alloced_pages_free_all s

/-! ## kallocfree.go — free-error handling (freePageOnCPU) -/

/-- Outcome of one `kmod.FreePage` ioctl as seen by `freePageOnCPU`:
either the kernel returned a latency, or it returned an error. -/
inductive FreeOutcome where
  | ok (latencyNs : Int)
  | err
deriving DecidableEq

/-- The pieces of workload state that `freePageOnCPU` touches: the global
`freeErrorLogged` flag, the `stats.pagesFreed` counter, and a ghost count
of messages printed to stderr. -/
structure FreeStats where
  freeErrorLogged : Bool
  pagesFreed : Nat
  stderrLogs : Nat
deriving DecidableEq

/-- Embedding of `kallocfree.freePageOnCPU` (latency sampling aside): on a
free error with `freeErrorLogged` still false, print the
"Couldn't free one or more kernel pages" message, set the flag and RETURN
the error (second component `true`); otherwise — success, or an error with
the flag already set — fall through, increment `pagesFreed` and return nil
(`false`). -/
def freePageOnCPU (s : FreeStats) (o : FreeOutcome) : FreeStats × Bool :=
  match o with
  | .err =>
    if !s.freeErrorLogged then
      ({ s with freeErrorLogged := true, stderrLogs := s.stderrLogs + 1 }, true)
    else
      ({ s with pagesFreed := s.pagesFreed + 1 }, false)
  | .ok _ => ({ s with pagesFreed := s.pagesFreed + 1 }, false)

/-- Embedding of the free-down phase of `runCPU`
(`for len(pages) > target { if err := w.freePageOnCPU(...); err != nil {
return fmt.Errorf(...) } ... }`): frees in FIFO order until done or until
`freePageOnCPU` returns an error, which the worker returns, aborting it
(and, through the errgroup, the workload). Second component `true` means
the worker aborted with an error. -/
def freeDownPhase (s : FreeStats) : List FreeOutcome → FreeStats × Bool
  | [] => (s, false)
  | o :: os =>
    let r := freePageOnCPU s o
    if r.2 then (r.1, true)
    else freeDownPhase r.1 os

/-- Embedding of the deferred cleanup at the top of `runCPU`
(`defer func() { for _, page := range pages { w.freePageOnCPU(cpu, page) } }`):
every outstanding page is freed and the returned error is discarded, so
this loop never aborts anything. -/
def deferredCleanup (s : FreeStats) : List FreeOutcome → FreeStats
  | [] => s
  | o :: os => deferredCleanup (freePageOnCPU s o).1 os

/-- Count of FreePage calls in a list of outcomes that the kernel module
actually completed (returned without error). -/
def kernelFreedCount (os : List FreeOutcome) : Nat :=
  (os.filter (fun o => o != FreeOutcome.err)).length

/-! ## kallocfree.go — ENOMEM backoff (allocPageOnCPU) -/

/-- The starting backoff `500 * time.Millisecond`, in nanoseconds. -/
def firstBackoffNs : Nat := 500000000

/-- The update `backoff += backoff / 2` (integer division on the int64
nanosecond count of a `time.Duration`). -/
def nextBackoff (b : Nat) : Nat := b + b / 2

/-- Backoff slept before retry number k+1, after k+1 consecutive ENOMEMs:
500ms, 750ms, 1125ms, ... int64 overflow of the Go Duration is unreachable
below 58 consecutive failures (months of sleeping) and is not modelled. -/
def backoffSeq : Nat → Nat
  | 0 => firstBackoffNs
  | k + 1 => nextBackoff (backoffSeq k)

/-- What one iteration of the retry loop in `allocPageOnCPU` observes:
ENOMEM from the ioctl (with or without the context being cancelled during
the backoff sleep), a successful allocation, or any other ioctl error. -/
inductive AllocAttempt where
  | enomem (cancelledDuringBackoff : Bool)
  | done (page : Nat)
  | otherError
deriving DecidableEq

/-- How `allocPageOnCPU` came back to `runCPU`. -/
inductive AllocResult where
  | page (p : Nat)
  | cancelled
  | failed
deriving DecidableEq

/-- Embedding of the retry loop of `kallocfree.allocPageOnCPU`. State:
current backoff, the `stats.allocFailures` counter, and the accumulated
list of backoff sleeps performed. On ENOMEM the failure counter always
grows; then either the context cancellation wakes the select immediately
(return `ctx.Err()`, modelled `cancelled`) or the full backoff is slept,
`backoff += backoff / 2`, and the loop retries. A success breaks with the
page; any other error breaks and is surfaced (`failed`), aborting the
workload in `runCPU`. `none` if the supplied attempt list runs out. -/
def allocLoop (backoff fails : Nat) (sleeps : List Nat) :
    List AllocAttempt → Nat × List Nat × Option AllocResult
  | [] => (fails, sleeps, none)
  | .enomem c :: rest =>
    if c then (fails + 1, sleeps, some .cancelled)
    else allocLoop (nextBackoff backoff) (fails + 1) (sleeps ++ [backoff]) rest
  | .done p :: _ => (fails, sleeps, some (.page p))
  | .otherError :: _ => (fails, sleeps, some .failed)

/-- Embedding of `allocPageOnCPU` as entered from `runCPU`: the loop starts
with a fresh 500ms backoff. Returns the failure-counter increments, the
backoff sleeps performed, and the result. -/
def allocPageOnCPU (attempts : List AllocAttempt) :
    Nat × List Nat × Option AllocResult :=
  allocLoop firstBackoffNs 0 [] attempts

/-! ## kallocfree.go — steady-state signalling (runCPU / AwaitSteadyState) -/

/-- The `middle := 1000` constant of `runCPU`. -/
def middle : Nat := 1000

/-- Per-worker state: the length of the local `pages` vector, the local
`steady` flag, and a ghost flag recording whether `len(pages)` has ever
equalled `middle`. -/
structure WorkerState where
  pages : Nat
  steady : Bool
  everHeldMiddle : Bool
deriving DecidableEq

/-- Shared state of the workload engine: one `WorkerState` per spawned
goroutine, the atomic counter `steadyStateThreads`, and whether the
`steadyStateReached` channel has been closed. -/
structure EngineState where
  workers : List WorkerState
  steadyStateThreads : Nat
  steadyStateReached : Bool
deriving DecidableEq

/-- Engine state when `Run` has spawned `n` workers and none has allocated
yet: empty page vectors, counter zero, channel open. -/
def engineStart (n : Nat) : EngineState :=
  { workers := List.replicate n { pages := 0, steady := false, everHeldMiddle := false }
    steadyStateThreads := 0
    steadyStateReached := false }

/-- One allocation by worker `i` in `runCPU`: `pages = append(pages, page)`,
then — faithfully to the guarded block — if `len(pages) == middle` and the
worker is not yet steady, `steadyStateThreads.Add(1)`, and when the new
value reaches `numThreads` (the worker count) the channel is closed. The
ghost `everHeldMiddle` records that the vector length hit `middle`. -/
def stepAlloc (s : EngineState) (i : Nat) : EngineState :=
  match s.workers.get? i with
  | none => s
  | some w =>
    let pages2 := w.pages + 1
    let held := pages2 == middle
    if held && !w.steady then
      let c := s.steadyStateThreads + 1
      { workers :=
          s.workers.set i
            { pages := pages2, steady := true, everHeldMiddle := true }
        steadyStateThreads := c
        steadyStateReached := s.steadyStateReached || decide (s.workers.length ≤ c) }
    else
      { s with
        workers :=
          s.workers.set i
            { pages := pages2, steady := w.steady
              everHeldMiddle := w.everHeldMiddle || held } }

/-- One free by worker `i` in `runCPU` (`pages = pages[1:]` after a
successful FreePage): the counter, the flags and the channel are untouched.
The ghost flag still records a pass through `middle`. -/
def stepFree (s : EngineState) (i : Nat) : EngineState :=
  match s.workers.get? i with
  | none => s
  | some w =>
    let pages2 := w.pages - 1
    { s with
      workers :=
        s.workers.set i
          { pages := pages2, steady := w.steady
            everHeldMiddle := w.everHeldMiddle || (pages2 == middle) } }

/-- Interleaving semantics of the workload: at each step some worker either
appends one page or frees one page. Allocation bursts, free bursts and the
ENOMEM retry loop are all sequences of these two events, so every execution
of `Run` is a path of this relation. -/
inductive EngineStep : EngineState → EngineState → Prop
  | alloc (s : EngineState) (i : Nat) : EngineStep s (stepAlloc s i)
  | free (s : EngineState) (i : Nat) : EngineStep s (stepFree s i)

/-- Reachability of an engine state from the spawn state. -/
def Reaches (s t : EngineState) : Prop :=
  Relation.ReflTransGen EngineStep s t

/-- How `AwaitSteadyState` can return: its `select` completes either on
`ctx.Done()` or on the closed `steadyStateReached` channel. -/
inductive AwaitOutcome where
  | viaCancel
  | viaSteadyChannel
deriving DecidableEq

/-- Embedding of `kallocfree.AwaitSteadyState`: whether the given `select`
branch can complete in state `s` with the given context-cancelled flag. -/
def awaitCanReturn (s : EngineState) (ctxCancelled : Bool) :
    AwaitOutcome → Bool
  | .viaCancel => ctxCancelled
  | .viaSteadyChannel => s.steadyStateReached

/-! ## Theorems for the claims -/

/-- C1: the claim says module exit releases every listed block back to the
allocator at its stored order, so that no allocated-and-unfreed page
survives module lifetime for every requested order. The code violates
this: `alloced_pages_free_all` calls `__free_page` — order 0 — instead of
`__free_pages(page, ap->order)`. Failing input evaluated here: one
ALLOC_PAGE of order 1 on CPU 0, then module exit. The per-CPU list IS
drained, but the exit path frees the order-1 block as (id 42, order 0),
and one of the block's two pages is never returned (`heldPages = 1`). -/
theorem C1_exit_drains_but_leaks :
    (pab_exit (pabIoctlAllocPage (allocedPagesStart 1) 0 1 42 5).1).1.alloced_pages = [[]]
    ∧ (pab_exit (pabIoctlAllocPage (allocedPagesStart 1) 0 1 42 5).1).2 = [(42, 0)]
    ∧ (pab_exit (pabIoctlAllocPage (allocedPagesStart 1) 0 1 42 5).1).1.heldPages = 1
    ∧ (pab_ioctl_free_page (pabIoctlAllocPage (allocedPagesStart 1) 0 1 42 5).1 42 0).map
        (fun r => r.1.heldPages) = some 0 := by
  decide

/-- C2: the claim says `NewCPUMask(n)` returns a mask whose only set bit is
bit n. The code violates this: its loop `for cpu, _ := range cpus` binds
the slice INDEX, so `NewCPUMask(n)` always sets bit 0. Failing input
evaluated here: `NewCPUMask(1)` yields the single word 1 (bit 0 set, bit 1
clear), where the claim requires the word 2. -/
theorem C2_mask_sets_index_not_cpu :
    NewCPUMask [1] = [1]
    ∧ Nat.testBit ((NewCPUMask [1]).getD 0 0) 1 = false
    ∧ Nat.testBit ((NewCPUMask [1]).getD 0 0) 0 = true
    ∧ NewCPUMask [1] ≠ [2] := by
  decide

/-- C3: the claim says the latency_ns returned by FREE_PAGE equals the
elapsed monotonic time of the timed free with nothing added. The code
violates this: `pab_ioctl_free_page` returns
`ktime_to_ns(ktime_sub(ktime_get(), start)) + 123`. Failing input
evaluated here: a free whose timed section took 1000ns reports 1123ns. -/
theorem C3_free_latency_off_by_123 :
    (pab_ioctl_free_page (pabIoctlAllocPage (allocedPagesStart 1) 0 0 7 0).1 7 1000).map
        (fun r => r.2) = some 1123
    ∧ (1123 : Int) ≠ 1000 := by
  decide

/-- C4: the claim says every `/sys/devices/system/node/node{N}` directory,
including multi-digit N ≥ 10, contributes key N bound to the CPU ids
parsed from its cpulist. The code violates this: `nodeSubdirRegexp` is
`node([0-9+])` — a one-character class (digit or literal plus), not
`[0-9]+` — so the leftmost match in "node10" captures only "1". Failing
input evaluated here: a listing with the single entry node10 whose cpulist
is "10\n" produces the map {1 ↦ [10]}, with no key 10 at all. -/
theorem C4_multidigit_node_misparsed :
    NUMANodes [("node10".toList, "10\n".toList)] = some [(1, [10])]
    ∧ ((NUMANodes [("node10".toList, "10\n".toList)]).map
        (fun m => m.any (fun p => p.1 = 10))) = some false := by
  decide

/-- C5: the claim says the reservoir PRNG is seeded deterministically, not
from wall-clock time, so that identical runs have identical seeds. The
code violates this: `NewReservoir` seeds with `time.Now().UnixNano()`.
Evaluated here at the concrete inputs: two reservoirs of capacity 3
created at clock readings 0 and 1 carry different PRNG seeds. -/
theorem C5_seed_not_deterministic :
    ¬ ((NewReservoir Nat (fun s _ => s.natAbs) 3 0).rand.seed
        = (NewReservoir Nat (fun s _ => s.natAbs) 3 1).rand.seed) := by
  decide

/-- C5 amended: the reservoir PRNG is seeded from the wall clock — the
seed of a reservoir created at clock reading `now` is exactly `now`, and
its `rand.Int()` stream is the library stream for that seed — so the
sampling trajectory of a run depends on its creation time, not only on the
build and the observation stream. -/
theorem C5_amended_seed_is_wall_clock {T : Type} [Inhabited T]
    (source : Int → Nat → Nat) (size : Nat) (now : Int) :
    (NewReservoir T source size now).rand.seed = now
    ∧ (NewReservoir T source size now).rand.stream = source now
    ∧ (NewReservoir T source size now).rand.pos = 0 :=
  ⟨rfl, rfl, rfl⟩

/-- Once `freeErrorLogged` is set it stays set and `freePageOnCPU` never
again returns an error, so the free-down loop never aborts from such a
state. -/
theorem freeDownPhase_no_abort_after_log (os : List FreeOutcome) :
    ∀ s : FreeStats, s.freeErrorLogged = true → (freeDownPhase s os).2 = false := by
  induction os with
  | nil => intro s _; rfl
  | cons o os ih =>
    intro s hs
    cases o with
    | ok lat => simpa [freeDownPhase, freePageOnCPU] using ih _ (by simpa [freePageOnCPU])
    | err => simp [freeDownPhase, freePageOnCPU, hs]; exact ih _ (by simp [freePageOnCPU, hs])

/-- The free-down loop prints at most one message: none once the flag is
set, at most one from a fresh state. -/
theorem freeDownPhase_logs_bound (os : List FreeOutcome) :
    ∀ s : FreeStats,
      (freeDownPhase s os).1.stderrLogs
        ≤ s.stderrLogs + (if s.freeErrorLogged then 0 else 1) := by
  induction os with
  | nil => intro s; cases s.freeErrorLogged <;> simp [freeDownPhase]
  | cons o os ih =>
    intro s
    cases o with
    | ok lat =>
      have h := ih { s with pagesFreed := s.pagesFreed + 1 }
      cases hl : s.freeErrorLogged <;>
        simpa [freeDownPhase, freePageOnCPU, hl] using (by simpa [hl] using h)
    | err =>
      cases hl : s.freeErrorLogged
      · simp [freeDownPhase, freePageOnCPU, hl]
      · have h := ih { s with pagesFreed := s.pagesFreed + 1 }
        simpa [freeDownPhase, freePageOnCPU, hl] using (by simpa [hl] using h)

/-- The deferred cleanup prints at most one message: none once the flag is
set, at most one from a fresh state. -/
theorem deferredCleanup_logs_bound (os : List FreeOutcome) :
    ∀ s : FreeStats,
      (deferredCleanup s os).stderrLogs
        ≤ s.stderrLogs + (if s.freeErrorLogged then 0 else 1) := by
  induction os with
  | nil => intro s; cases s.freeErrorLogged <;> simp [deferredCleanup]
  | cons o os ih =>
    intro s
    cases o with
    | ok lat =>
      have h := ih { s with pagesFreed := s.pagesFreed + 1 }
      cases hl : s.freeErrorLogged <;>
        simpa [deferredCleanup, freePageOnCPU, hl] using (by simpa [hl] using h)
    | err =>
      cases hl : s.freeErrorLogged
      · have h := ih { s with freeErrorLogged := true, stderrLogs := s.stderrLogs + 1 }
        simpa [deferredCleanup, freePageOnCPU, hl] using (by simpa using h)
      · have h := ih { s with pagesFreed := s.pagesFreed + 1 }
        simpa [deferredCleanup, freePageOnCPU, hl] using (by simpa [hl] using h)

/-- C6 counterexample: the claim says a free error never aborts the worker
or the workload. Evaluated at a concrete input: starting from a fresh
state (no error logged yet), a failing free in the free-down loop of
`runCPU` makes `freePageOnCPU` return the error and the loop abort the
worker — it never even reaches the following successful free. -/
theorem C6_first_free_error_aborts :
    (freeDownPhase { freeErrorLogged := false, pagesFreed := 0, stderrLogs := 0 }
        [FreeOutcome.err, FreeOutcome.ok 0]).2 = true := by
  decide

/-- C6 amended: when a free fails, the FIRST error is logged to stderr (at
most one message is ever printed) and is RETURNED, aborting the worker —
and with it the workload — when it happens in the free-down loop; every
later free error is suppressed: nothing is logged, no error is returned,
the free is counted and the workload continues; and the deferred
end-of-worker cleanup ignores the returned error, so frees there never
abort anything. -/
theorem C6_amended_free_error_policy (s : FreeStats) (os : List FreeOutcome) :
    (s.freeErrorLogged = false →
      freePageOnCPU s .err
        = ({ freeErrorLogged := true, pagesFreed := s.pagesFreed,
             stderrLogs := s.stderrLogs + 1 }, true))
    ∧ (s.freeErrorLogged = true →
      freePageOnCPU s .err
        = ({ s with pagesFreed := s.pagesFreed + 1 }, false))
    ∧ (s.freeErrorLogged = true → (freeDownPhase s os).2 = false)
    ∧ (freeDownPhase s os).1.stderrLogs
        ≤ s.stderrLogs + (if s.freeErrorLogged then 0 else 1)
    ∧ (deferredCleanup s os).stderrLogs
        ≤ s.stderrLogs + (if s.freeErrorLogged then 0 else 1) := by
  refine ⟨?_, ?_, ?_, ?_, ?_⟩
  · intro h; simp [freePageOnCPU, h]
  · intro h; simp [freePageOnCPU, h]
  · intro h; exact freeDownPhase_no_abort_after_log os s h
  · exact freeDownPhase_logs_bound os s
  · exact deferredCleanup_logs_bound os s

/-- Witness for C6 amended: the policy instantiated at an already-logged
state and a single failing free. -/
theorem C6_amended_witness :
    ((FreeStats.mk true 4 1).freeErrorLogged = true →
      freePageOnCPU (FreeStats.mk true 4 1) .err = (FreeStats.mk true 5 1, false))
    ∧ ((FreeStats.mk true 4 1).freeErrorLogged = true →
      (freeDownPhase (FreeStats.mk true 4 1) [FreeOutcome.err]).2 = false) :=
  ⟨(C6_amended_free_error_policy (FreeStats.mk true 4 1) [FreeOutcome.err]).2.1,
   (C6_amended_free_error_policy (FreeStats.mk true 4 1) [FreeOutcome.err]).2.2.1⟩

/-- The aggregation `Run` performs after the worker group ends:
`Result.PagesFreed` is a copy of `stats.pagesFreed`. -/
def ResultPagesFreed (s : FreeStats) : Nat := s.pagesFreed

/-- Once the flag is set, EVERY free — success or failure — increments
`pagesFreed`. -/
theorem deferredCleanup_counts_all (os : List FreeOutcome) :
    ∀ s : FreeStats, s.freeErrorLogged = true →
      deferredCleanup s os
        = { s with pagesFreed := s.pagesFreed + os.length } := by
  induction os with
  | nil => intro s hs; simp [deferredCleanup]
  | cons o os ih =>
    intro s hs
    cases o with
    | ok lat =>
      have h2 := ih { s with pagesFreed := s.pagesFreed + 1 } hs
      simp [deferredCleanup, freePageOnCPU, h2, Nat.add_assoc,
        Nat.add_comm 1 os.length]
    | err =>
      have h2 := ih (FreeStats.mk true (s.pagesFreed + 1) s.stderrLogs) rfl
      simp [deferredCleanup, freePageOnCPU, hs, h2, Nat.add_assoc,
        Nat.add_comm 1 os.length]

/-- From a fresh state, exactly the first failing free goes uncounted. -/
theorem deferredCleanup_fresh_count (os : List FreeOutcome) :
    ∀ s : FreeStats, s.freeErrorLogged = false →
      (deferredCleanup s os).pagesFreed
        = s.pagesFreed + os.length
            - (if os.contains FreeOutcome.err then 1 else 0) := by
  induction os with
  | nil => intro s hs; simp [deferredCleanup]
  | cons o os ih =>
    intro s hs
    cases o with
    | ok lat =>
      rw [deferredCleanup, freePageOnCPU]
      rw [ih { s with pagesFreed := s.pagesFreed + 1 } hs]
      by_cases hc : os.contains FreeOutcome.err
      · have hlen : 1 ≤ os.length := by
          rcases List.mem_of_elem_eq_true hc with hmem
          exact List.length_pos.mpr (List.ne_nil_of_mem hmem)
        simp [hc, List.contains_cons]
        omega
      · simp [hc, List.contains_cons]
        omega
    | err =>
      rw [deferredCleanup, freePageOnCPU]
      simp only [hs, Bool.not_false, if_pos rfl]
      rw [deferredCleanup_counts_all os _ rfl]
      simp [List.contains_cons]

/-- C10: once a first free error has been logged, every subsequent failing
FreePage call skips the error branch and still increments `pagesFreed`
(first two conjuncts); iterating frees from a logged state counts every
call (third); from a fresh state exactly the single first-logged failure
is excluded (fourth); hence `Result.PagesFreed` can exceed what the kernel
module actually freed, as on the concrete stream of two failing frees:
counted 1, actually freed 0 (last two conjuncts). -/
theorem C10_pagesFreed_overcounts (s : FreeStats) (os : List FreeOutcome)
    (h : s.freeErrorLogged = true) :
    (freePageOnCPU s .err).1.pagesFreed = s.pagesFreed + 1
    ∧ (freePageOnCPU s .err).2 = false
    ∧ (deferredCleanup s os).pagesFreed = s.pagesFreed + os.length
    ∧ (∀ t : FreeStats, t.freeErrorLogged = false →
        (deferredCleanup t os).pagesFreed
          = t.pagesFreed + os.length
              - (if os.contains FreeOutcome.err then 1 else 0))
    ∧ ResultPagesFreed
        (deferredCleanup { freeErrorLogged := false, pagesFreed := 0, stderrLogs := 0 }
          [FreeOutcome.err, FreeOutcome.err]) = 1
    ∧ kernelFreedCount [FreeOutcome.err, FreeOutcome.err] = 0 := by
  refine ⟨by simp [freePageOnCPU, h], by simp [freePageOnCPU, h], ?_, ?_, by decide, by decide⟩
  · rw [deferredCleanup_counts_all os s h]
  · intro t ht; exact deferredCleanup_fresh_count os t ht

/-- Witness for C10: the overcount facts instantiated at a logged state
and a concrete two-outcome stream. -/
theorem C10_witness :
    (freePageOnCPU (FreeStats.mk true 7 1) .err).1.pagesFreed = 8
    ∧ (freePageOnCPU (FreeStats.mk true 7 1) .err).2 = false
    ∧ (deferredCleanup (FreeStats.mk true 7 1) [FreeOutcome.err, FreeOutcome.ok 3]).pagesFreed = 9 :=
  ⟨(C10_pagesFreed_overcounts (FreeStats.mk true 7 1)
      [FreeOutcome.err, FreeOutcome.ok 3] rfl).1,
   (C10_pagesFreed_overcounts (FreeStats.mk true 7 1)
      [FreeOutcome.err, FreeOutcome.ok 3] rfl).2.1,
   (C10_pagesFreed_overcounts (FreeStats.mk true 7 1)
      [FreeOutcome.err, FreeOutcome.ok 3] rfl).2.2.1⟩

/-- The backoff grows by at least one nanosecond per consecutive failure. -/
theorem backoffSeq_lower (k : Nat) : firstBackoffNs + k ≤ backoffSeq k := by
  induction k with
  | zero => simp [backoffSeq]
  | succ k ih =>
    have hfirst : (2 : Nat) ≤ firstBackoffNs := by norm_num [firstBackoffNs]
    have h2 : 2 ≤ backoffSeq k := by omega
    have hdiv : 1 ≤ backoffSeq k / 2 := (Nat.le_div_iff_mul_le (by norm_num)).mpr h2
    calc firstBackoffNs + (k + 1) ≤ backoffSeq k + 1 := by omega
    _ ≤ backoffSeq k + backoffSeq k / 2 := by omega
    _ = backoffSeq (k + 1) := rfl

/-- The backoff never drops to below two nanoseconds. -/
theorem two_le_backoffSeq (k : Nat) : 2 ≤ backoffSeq k := by
  have h := backoffSeq_lower k
  have hfirst : (2 : Nat) ≤ firstBackoffNs := by norm_num [firstBackoffNs]
  omega

/-- C9 counterexample: the claim calls the backoff "capped". It is not:
no bound dominates the whole backoff sequence, and concretely the sleep
after 26 consecutive ENOMEMs already exceeds one hour
(3,600,000,000,000 ns), still far below any int64 overflow. -/
theorem C9_backoff_is_uncapped :
    (¬ ∃ C : Nat, ∀ k : Nat, backoffSeq k ≤ C)
    ∧ 3600 * 1000000000 < backoffSeq 25 := by
  constructor
  · rintro ⟨C, hC⟩
    have h1 := backoffSeq_lower (C + 1)
    have h2 := hC (C + 1)
    have : 0 < firstBackoffNs := by norm_num [firstBackoffNs]
    omega
  · decide

/-- Altogether k sleeps of `backoffSeq 0 .. backoffSeq (k-1)` happen while
the loop body starts from backoff `backoffSeq m`. -/
theorem allocLoop_replicate_enomem (k : Nat) :
    ∀ (m f : Nat) (sleeps : List Nat) (rest : List AllocAttempt),
      allocLoop (backoffSeq m) f sleeps
          (List.replicate k (AllocAttempt.enomem false) ++ rest)
        = allocLoop (backoffSeq (m + k)) (f + k)
            (sleeps ++ (List.range k).map (fun j => backoffSeq (m + j))) rest := by
  induction k with
  | zero => intro m f sleeps rest; simp
  | succ k ih =>
    intro m f sleeps rest
    have step :
        allocLoop (backoffSeq m) f sleeps
            (List.replicate (k + 1) (AllocAttempt.enomem false) ++ rest)
          = allocLoop (backoffSeq (m + 1)) (f + 1) (sleeps ++ [backoffSeq m])
              (List.replicate k (AllocAttempt.enomem false) ++ rest) := by
      simp [List.replicate_succ, allocLoop]
      rfl
    rw [step, ih (m + 1) (f + 1) (sleeps ++ [backoffSeq m]) rest]
    have hidx : m + 1 + k = m + (k + 1) := by omega
    have hmap : (List.range (k + 1)).map (fun j => backoffSeq (m + j))
        = backoffSeq m :: (List.range k).map (fun j => backoffSeq (m + 1 + j)) := by
      rw [List.range_succ_eq_map, List.map_cons, List.map_map]
      congr 1
      apply List.map_congr_left
      intro a _
      show backoffSeq (m + Nat.succ a) = backoffSeq (m + 1 + a)
      exact congrArg backoffSeq (by omega)
    rw [hidx, hmap, show f + 1 + k = f + (k + 1) from by omega]
    simp

/-- C9 amended: ENOMEM from ALLOC_PAGE is treated as transient — the
failure counter grows once per ENOMEM and the worker sleeps an UNCAPPED
exponential backoff starting at 500 ms and growing by 1.5x (with integer
division) per consecutive failure, retrying until success; cancellation
during the backoff sleep wakes immediately and returns without the page;
and any ioctl error other than ENOMEM ends the loop and is surfaced,
aborting the workload. Stated for k consecutive ENOMEMs followed by each
possible outcome, together with the backoff law itself. -/
theorem C9_amended_enomem_backoff (k p : Nat) :
    allocPageOnCPU (List.replicate k (AllocAttempt.enomem false) ++ [AllocAttempt.done p])
      = (k, (List.range k).map backoffSeq, some (AllocResult.page p))
    ∧ allocPageOnCPU (List.replicate k (AllocAttempt.enomem false) ++ [AllocAttempt.otherError])
      = (k, (List.range k).map backoffSeq, some AllocResult.failed)
    ∧ allocPageOnCPU (List.replicate k (AllocAttempt.enomem false) ++ [AllocAttempt.enomem true])
      = (k + 1, (List.range k).map backoffSeq, some AllocResult.cancelled)
    ∧ backoffSeq 0 = 500000000
    ∧ (∀ j, backoffSeq (j + 1) = backoffSeq j + backoffSeq j / 2)
    ∧ (∀ j, backoffSeq j < backoffSeq (j + 1)) := by
  have base := allocLoop_replicate_enomem k 0 0 []
  refine ⟨?_, ?_, ?_, rfl, fun j => rfl, ?_⟩
  · have h := base [AllocAttempt.done p]
    simpa [allocPageOnCPU, allocLoop, backoffSeq] using h
  · have h := base [AllocAttempt.otherError]
    simpa [allocPageOnCPU, allocLoop, backoffSeq] using h
  · have h := base [AllocAttempt.enomem true]
    simpa [allocPageOnCPU, allocLoop, backoffSeq] using h
  · intro j
    have h2 := two_le_backoffSeq j
    have hdiv : 1 ≤ backoffSeq j / 2 := (Nat.le_div_iff_mul_le (by norm_num)).mpr h2
    have hstep : backoffSeq (j + 1) = backoffSeq j + backoffSeq j / 2 := rfl
    omega

/-- Witness for C9 amended: two ENOMEMs then success; the failure counter
reads 2 and the worker slept 500 ms then 750 ms. -/
theorem C9_amended_witness :
    allocPageOnCPU [AllocAttempt.enomem false, AllocAttempt.enomem false, AllocAttempt.done 9]
      = (2, [500000000, 750000000], some (AllocResult.page 9)) := by
  have h := (C9_amended_enomem_backoff 2 9).1
  simpa [List.replicate, List.range_succ] using h

/-- One `Add` never changes the capacity (the output slice length). -/
theorem Add_outSamples_length {T : Type} (r : Reservoir T) (x : T) :
    (r.Add x).outSamples.length = r.outSamples.length := by
  unfold Reservoir.Add
  by_cases h1 : r.numInSamples ≥ r.outSamples.length
  · by_cases h2 : (r.rand.stream r.rand.pos) % (r.numInSamples + 1) ≥ r.outSamples.length
    · simp [h1, h2]
    · simp [h1, h2]
  · simp [h1]

/-- One `Add` always counts the incoming item. -/
theorem Add_numInSamples {T : Type} (r : Reservoir T) (x : T) :
    (r.Add x).numInSamples = r.numInSamples + 1 := by
  unfold Reservoir.Add
  by_cases h1 : r.numInSamples ≥ r.outSamples.length
  · by_cases h2 : (r.rand.stream r.rand.pos) % (r.numInSamples + 1) ≥ r.outSamples.length
    · simp [h1, h2]
    · simp [h1, h2]
  · simp [h1]

/-- Feeding a stream never changes the capacity. -/
theorem addAll_outSamples_length {T : Type} (xs : List T) :
    ∀ r : Reservoir T, (addAll r xs).outSamples.length = r.outSamples.length := by
  induction xs with
  | nil => intro r; rfl
  | cons x xs ih =>
    intro r
    have h : addAll r (x :: xs) = addAll (r.Add x) xs := rfl
    rw [h, ih, Add_outSamples_length]

/-- Feeding a stream counts every item. -/
theorem addAll_numInSamples {T : Type} (xs : List T) :
    ∀ r : Reservoir T, (addAll r xs).numInSamples = r.numInSamples + xs.length := by
  induction xs with
  | nil => intro r; rfl
  | cons x xs ih =>
    intro r
    have h : addAll r (x :: xs) = addAll (r.Add x) xs := rfl
    rw [h, ih, Add_numInSamples]
    simp [Nat.add_assoc, Nat.add_comm 1 xs.length]

/-- Writing one slot just beyond a fully written prefix. -/
theorem set_append_replicate_default {T : Type} (as : List T) (x d : T) (m : Nat) :
    (as ++ d :: List.replicate m d).set as.length x
      = as ++ x :: List.replicate m d := by
  induction as with
  | nil => rfl
  | cons a as ih => simp [List.set, ih]

/-- Until the capacity is reached, `Add` appends each item in order after
the ones already written, and the PRNG is never consulted. -/
theorem addAll_below_cap {T : Type} [Inhabited T] (xs : List T) :
    ∀ (acc : List T) (m : Nat) (rnd : RandState), xs.length ≤ m →
      addAll (Reservoir.mk (acc ++ List.replicate m default) acc.length rnd) xs
        = Reservoir.mk ((acc ++ xs) ++ List.replicate (m - xs.length) default)
            (acc.length + xs.length) rnd := by
  induction xs with
  | nil => intro acc m rnd _; simp [addAll]
  | cons x xs ih =>
    intro acc m rnd hlen
    cases m with
    | zero => simp at hlen
    | succ m3 =>
      have hlen3 : xs.length ≤ m3 := by simpa using hlen
      have hstep :
          (Reservoir.mk (acc ++ List.replicate (m3 + 1) default) acc.length rnd).Add x
            = Reservoir.mk ((acc ++ [x]) ++ List.replicate m3 default)
                (acc.length + 1) rnd := by
        unfold Reservoir.Add
        have hcond : ¬ (acc.length ≥ (acc ++ List.replicate (m3 + 1) (default : T)).length) := by
          simp
        simp only [hcond, if_false]
        rw [List.replicate_succ, set_append_replicate_default]
        simp
      have h : addAll (Reservoir.mk (acc ++ List.replicate (m3 + 1) default) acc.length rnd)
            (x :: xs)
          = addAll ((Reservoir.mk (acc ++ List.replicate (m3 + 1) default) acc.length rnd).Add x)
            xs := rfl
      rw [h, hstep]
      have hacc : acc.length + 1 = (acc ++ [x]).length := by simp
      rw [hacc, ih (acc ++ [x]) m3 rnd hlen3]
      simp [Nat.add_assoc, Nat.add_comm 1 xs.length]

/-- C7: for every capacity K and input stream, after n calls to `Add` the
reservoir holds and `Samples` returns exactly min(n, K) items; while
n ≤ K, `Samples` is the input stream in order; and every `Add` beyond the
K-th either overwrites exactly one slot j < K with the incoming item, with
j drawn from [0, i] for the i-th (0-indexed) item, or leaves the output
samples unchanged — while still counting the item. -/
theorem C7_reservoir_invariants {T : Type} [Inhabited T]
    (source : Int → Nat → Nat) (K : Nat) (now : Int) (xs : List T) :
    (addAll (NewReservoir T source K now) xs).Samples.length = min xs.length K
    ∧ (xs.length ≤ K → (addAll (NewReservoir T source K now) xs).Samples = xs)
    ∧ (∀ (r : Reservoir T) (x : T), r.outSamples.length = K → K ≤ r.numInSamples →
        ∃ j, j ≤ r.numInSamples
          ∧ ((j < K ∧ (r.Add x).outSamples = r.outSamples.set j x)
              ∨ (K ≤ j ∧ (r.Add x).outSamples = r.outSamples))
          ∧ (r.Add x).numInSamples = r.numInSamples + 1) := by
  refine ⟨?_, ?_, ?_⟩
  · have hlen : (addAll (NewReservoir T source K now) xs).outSamples.length = K := by
      rw [addAll_outSamples_length]; simp [NewReservoir]
    have hnum : (addAll (NewReservoir T source K now) xs).numInSamples = xs.length := by
      rw [addAll_numInSamples]; simp [NewReservoir]
    simp only [Reservoir.Samples, List.length_take, hlen, hnum]
    omega
  · intro hle
    have h := addAll_below_cap xs [] K
      (RandState.mk now (source now) 0) hle
    have hnew : NewReservoir T source K now
        = Reservoir.mk (([] : List T) ++ List.replicate K default)
            (List.length ([] : List T)) (RandState.mk now (source now) 0) := by
      simp [NewReservoir]
    rw [hnew, h]
    simp only [Reservoir.Samples, List.nil_append, List.length_nil, Nat.zero_add]
    have hl : (xs ++ List.replicate (K - xs.length) (default : T)).length
        = xs.length + (K - xs.length) := by simp
    rw [hl]
    have hmin : min xs.length (xs.length + (K - xs.length)) = xs.length := by omega
    rw [hmin]
    exact List.take_left xs _
  · intro r x hK hge
    refine ⟨(r.rand.stream r.rand.pos) % (r.numInSamples + 1), ?_, ?_, Add_numInSamples r x⟩
    · have h := Nat.mod_lt (r.rand.stream r.rand.pos)
        (show 0 < r.numInSamples + 1 by omega)
      omega
    · unfold Reservoir.Add
      have h1 : r.numInSamples ≥ r.outSamples.length := by omega
      by_cases h2 : (r.rand.stream r.rand.pos) % (r.numInSamples + 1) ≥ r.outSamples.length
      · refine Or.inr ⟨by omega, ?_⟩
        simp [h1, h2]
      · refine Or.inl ⟨by omega, ?_⟩
        simp [h1, h2]

/-- Witness for C7: a capacity-3 reservoir fed the two-item stream [5, 6]
returns exactly [5, 6]. -/
theorem C7_witness :
    (addAll (NewReservoir Nat (fun _ _ => 0) 3 0) [5, 6]).Samples = [5, 6] :=
  (C7_reservoir_invariants (fun _ _ => 0) 3 0 [5, 6]).2.1 (by decide)

/-- The number of steady workers in a list, before and after replacing the
element at one position. -/
theorem filter_length_set {α : Type} (p : α → Bool) :
    ∀ (l : List α) (i : Nat) (w w2 : α), l.get? i = some w →
      ((l.set i w2).filter p).length + (if p w then 1 else 0)
        = (l.filter p).length + (if p w2 then 1 else 0) := by
  intro l
  induction l with
  | nil => intro i w w2 h; simp at h
  | cons a as ih =>
    intro i w w2 h
    cases i with
    | zero =>
      simp only [List.get?] at h
      cases h
      cases hp : p a <;> cases hp2 : p w2 <;>
        simp [List.set, List.filter, hp, hp2, Nat.add_comm]
    | succ i =>
      simp only [List.get?] at h
      have h2 := ih i w w2 h
      cases hp : p a <;> simp [List.set, List.filter, hp] <;> omega

/-- Replacing one list element leaves the other members in place. -/
theorem mem_of_mem_set {α : Type} :
    ∀ (l : List α) (i : Nat) (w2 x : α), x ∈ l.set i w2 → x ∈ l ∨ x = w2 := by
  intro l
  induction l with
  | nil => intro i w2 x hx; simp [List.set] at hx
  | cons a as ih =>
    intro i w2 x hx
    cases i with
    | zero =>
      simp [List.set] at hx
      rcases hx with hx | hx
      · exact Or.inr hx
      · exact Or.inl (List.mem_cons_of_mem a hx)
    | succ i =>
      simp [List.set] at hx
      rcases hx with hx | hx
      · exact Or.inl (by simp [hx])
      · rcases ih i w2 x hx with h | h
        · exact Or.inl (List.mem_cons_of_mem a h)
        · exact Or.inr h

/-- A list element found by index is a member. -/
theorem mem_of_get?_eq_some {α : Type} :
    ∀ (l : List α) (i : Nat) (w : α), l.get? i = some w → w ∈ l := by
  intro l
  induction l with
  | nil => intro i w h; simp at h
  | cons a as ih =>
    intro i w h
    cases i with
    | zero => simp only [List.get?] at h; cases h; exact List.mem_cons_self a as
    | succ i =>
      simp only [List.get?] at h
      exact List.mem_cons_of_mem a (ih i w h)

/-- A filter that keeps as many elements as the list holds keeps them all. -/
theorem all_of_filter_length_eq {α : Type} (p : α → Bool) :
    ∀ l : List α, (l.filter p).length = l.length → ∀ x ∈ l, p x = true := by
  intro l
  induction l with
  | nil => intro _ x hx; simp at hx
  | cons a as ih =>
    intro h x hx
    have hle := List.length_filter_le p as
    cases hp : p a
    · rw [List.filter_cons_of_neg (by simp [hp])] at h
      simp at h
      omega
    · rw [List.filter_cons_of_pos (by simp [hp])] at h
      simp at h
      rcases List.mem_cons.mp hx with hx | hx
      · rw [hx]; exact hp
      · exact h x hx

/-- The invariant tying the engine state together: the shared counter holds
the number of steady workers, a steady worker has held `middle` pages, and
a closed channel means the counter reached the worker count. -/
def EngineInv (s : EngineState) : Prop :=
  s.steadyStateThreads = (s.workers.filter (fun w => w.steady)).length
  ∧ (∀ w ∈ s.workers, w.steady = true → w.everHeldMiddle = true)
  ∧ (s.steadyStateReached = true → s.workers.length ≤ s.steadyStateThreads)

/-- The invariant holds at spawn time. -/
theorem engineInv_start (n : Nat) : EngineInv (engineStart n) := by
  refine ⟨?_, ?_, ?_⟩
  · show 0 = (List.filter _ (List.replicate n _)).length
    induction n with
    | zero => rfl
    | succ n ih =>
      rw [List.replicate_succ, List.filter_cons_of_neg (by simp)]
      exact ih
  · intro w hw hs
    have := List.eq_of_mem_replicate hw
    rw [this] at hs
    exact absurd hs (by simp)
  · intro h; exact absurd h (by simp [engineStart])

/-- Unfolding `stepAlloc` at an index with no worker. -/
theorem stepAlloc_none (s : EngineState) (i : Nat)
    (hw : s.workers.get? i = none) : stepAlloc s i = s := by
  unfold stepAlloc
  rw [hw]

/-- Unfolding `stepAlloc` when the appended page is the `middle`-th and the
worker is not yet steady. -/
theorem stepAlloc_hit (s : EngineState) (i : Nat) (w : WorkerState)
    (hw : s.workers.get? i = some w)
    (hc : ((w.pages + 1 == middle) && !w.steady) = true) :
    stepAlloc s i
      = EngineState.mk (s.workers.set i (WorkerState.mk (w.pages + 1) true true))
          (s.steadyStateThreads + 1)
          (s.steadyStateReached
            || decide (s.workers.length ≤ s.steadyStateThreads + 1)) := by
  unfold stepAlloc
  rw [hw]
  simp only [hc, if_true]

/-- Unfolding `stepAlloc` in every other case. -/
theorem stepAlloc_miss (s : EngineState) (i : Nat) (w : WorkerState)
    (hw : s.workers.get? i = some w)
    (hc : ((w.pages + 1 == middle) && !w.steady) = false) :
    stepAlloc s i
      = EngineState.mk
          (s.workers.set i
            (WorkerState.mk (w.pages + 1) w.steady
              (w.everHeldMiddle || (w.pages + 1 == middle))))
          s.steadyStateThreads s.steadyStateReached := by
  unfold stepAlloc
  rw [hw]
  simp only [hc, Bool.false_eq_true, if_false]

/-- Unfolding `stepFree` at an index with no worker. -/
theorem stepFree_none (s : EngineState) (i : Nat)
    (hw : s.workers.get? i = none) : stepFree s i = s := by
  unfold stepFree
  rw [hw]

/-- Unfolding `stepFree` at a live index. -/
theorem stepFree_some (s : EngineState) (i : Nat) (w : WorkerState)
    (hw : s.workers.get? i = some w) :
    stepFree s i
      = EngineState.mk
          (s.workers.set i
            (WorkerState.mk (w.pages - 1) w.steady
              (w.everHeldMiddle || (w.pages - 1 == middle))))
          s.steadyStateThreads s.steadyStateReached := by
  unfold stepFree
  rw [hw]

/-- One allocation step preserves the invariant. -/
theorem engineInv_stepAlloc (s : EngineState) (i : Nat) (hinv : EngineInv s) :
    EngineInv (stepAlloc s i) := by
  obtain ⟨h1, h2, h3⟩ := hinv
  cases hw : s.workers.get? i with
  | none => rw [stepAlloc_none s i hw]; exact ⟨h1, h2, h3⟩
  | some w =>
    cases hc : ((w.pages + 1 == middle) && !w.steady) with
    | true =>
      have hsteady : w.steady = false := by
        cases hs : w.steady
        · rfl
        · rw [hs] at hc; simp at hc
      rw [stepAlloc_hit s i w hw hc]
      have hflt := filter_length_set (fun w => w.steady) s.workers i w
        (WorkerState.mk (w.pages + 1) true true) hw
      simp only [hsteady] at hflt
      simp at hflt
      refine ⟨?_, ?_, ?_⟩
      · show s.steadyStateThreads + 1
          = (List.filter (fun w => w.steady)
              (s.workers.set i (WorkerState.mk (w.pages + 1) true true))).length
        rw [h1]
        omega
      · intro w2 hw2 hs2
        rcases mem_of_mem_set _ _ _ _ hw2 with hmem | heq
        · exact h2 w2 hmem hs2
        · rw [heq]
      · intro hcl
        simp only [List.length_set]
        simp at hcl
        rcases hcl with hcl | hcl
        · have := h3 hcl; omega
        · omega
    | false =>
      rw [stepAlloc_miss s i w hw hc]
      have hflt := filter_length_set (fun w => w.steady) s.workers i w
        (WorkerState.mk (w.pages + 1) w.steady
          (w.everHeldMiddle || (w.pages + 1 == middle))) hw
      simp at hflt
      refine ⟨?_, ?_, ?_⟩
      · show s.steadyStateThreads
          = (List.filter (fun w => w.steady)
              (s.workers.set i
                (WorkerState.mk (w.pages + 1) w.steady
                  (w.everHeldMiddle || (w.pages + 1 == middle))))).length
        rw [h1]
        omega
      · intro w2 hw2 hs2
        rcases mem_of_mem_set _ _ _ _ hw2 with hmem | heq
        · exact h2 w2 hmem hs2
        · subst heq
          simp at hs2
          have := h2 w (mem_of_get?_eq_some _ _ _ hw) hs2
          simp [this]
      · intro hcl
        simp only [List.length_set]
        exact h3 hcl

/-- One free step preserves the invariant. -/
theorem engineInv_stepFree (s : EngineState) (i : Nat) (hinv : EngineInv s) :
    EngineInv (stepFree s i) := by
  obtain ⟨h1, h2, h3⟩ := hinv
  cases hw : s.workers.get? i with
  | none => rw [stepFree_none s i hw]; exact ⟨h1, h2, h3⟩
  | some w =>
    rw [stepFree_some s i w hw]
    have hflt := filter_length_set (fun w => w.steady) s.workers i w
      (WorkerState.mk (w.pages - 1) w.steady
        (w.everHeldMiddle || (w.pages - 1 == middle))) hw
    simp at hflt
    refine ⟨?_, ?_, ?_⟩
    · show s.steadyStateThreads
        = (List.filter (fun w => w.steady)
            (s.workers.set i
              (WorkerState.mk (w.pages - 1) w.steady
                (w.everHeldMiddle || (w.pages - 1 == middle))))).length
      rw [h1]
      omega
    · intro w2 hw2 hs2
      rcases mem_of_mem_set _ _ _ _ hw2 with hmem | heq
      · exact h2 w2 hmem hs2
      · subst heq
        simp at hs2
        have := h2 w (mem_of_get?_eq_some _ _ _ hw) hs2
        simp [this]
    · intro hcl
      simp only [List.length_set]
      exact h3 hcl

/-- Every state the workload can reach satisfies the invariant. -/
theorem engineInv_reaches (n : Nat) (s : EngineState)
    (h : Reaches (engineStart n) s) : EngineInv s := by
  induction h with
  | refl => exact engineInv_start n
  | tail hab hbc ih =>
    cases hbc with
    | alloc i => exact engineInv_stepAlloc _ i ih
    | free i => exact engineInv_stepFree _ i ih

/-- C8: with the context not cancelled, `AwaitSteadyState` can only return
through the closed `steadyStateReached` channel, and in every reachable
state where that channel is closed, the shared counter equals the number
of workers whose one-shot `steady` flag is set, the counter has reached
the worker count, and every worker has at least once held `middle` = 1000
outstanding pages. -/
theorem C8_await_steady_state (n : Nat) (s : EngineState) (o : AwaitOutcome)
    (hr : Reaches (engineStart n) s)
    (hret : awaitCanReturn s false o = true) :
    s.steadyStateThreads = (s.workers.filter (fun w => w.steady)).length
    ∧ s.workers.length ≤ s.steadyStateThreads
    ∧ ∀ w ∈ s.workers, w.everHeldMiddle = true := by
  obtain ⟨h1, h2, h3⟩ := engineInv_reaches n s hr
  have hclosed : s.steadyStateReached = true := by
    cases o with
    | viaCancel => exact absurd hret (by simp [awaitCanReturn])
    | viaSteadyChannel => simpa [awaitCanReturn] using hret
  have hcnt := h3 hclosed
  refine ⟨h1, hcnt, ?_⟩
  have hlenle := List.length_filter_le (fun w => w.steady) s.workers
  have hall : ∀ w ∈ s.workers, (fun w : WorkerState => w.steady) w = true :=
    all_of_filter_length_eq _ s.workers (by omega)
  intro w hw
  exact h2 w hw (hall w hw)

/-- A run of consecutive allocations by one worker is a valid execution. -/
theorem reaches_alloc_iter (i : Nat) (s : EngineState) :
    ∀ k, Reaches s ((fun t => stepAlloc t i)^[k] s) := by
  intro k
  induction k with
  | zero => exact Relation.ReflTransGen.refl
  | succ k ih =>
    rw [Function.iterate_succ_apply']
    exact Relation.ReflTransGen.tail ih (EngineStep.alloc _ i)

/-- Below `middle` allocations, a lone worker has an open channel, a zero
counter and an unset flag. -/
theorem allocIter_below (k : Nat) (hk : k < middle) :
    (fun t => stepAlloc t 0)^[k] (engineStart 1)
      = EngineState.mk [WorkerState.mk k false false] 0 false := by
  induction k with
  | zero => rfl
  | succ k ih =>
    have hk2 : k < middle := by omega
    rw [Function.iterate_succ_apply', ih hk2]
    have hne : ((k + 1 == middle) : Bool) = false := by
      simp only [beq_eq_false_iff_ne, ne_eq]
      omega
    simp [stepAlloc, hne]

/-- The 1000th allocation of a lone worker closes the channel. -/
theorem allocIter_closes :
    (fun t => stepAlloc t 0)^[middle] (engineStart 1)
      = EngineState.mk [WorkerState.mk middle true true] 1 true := by
  have h999 : (999 : Nat) < middle := by norm_num [middle]
  have hm : middle = 999 + 1 := by norm_num [middle]
  rw [hm, Function.iterate_succ_apply', allocIter_below 999 h999]
  decide

/-- Witness for C8: a single worker that allocates 1000 pages in a row
closes the steady-state channel, and the theorem then reports that it has
held `middle` pages. -/
theorem C8_witness :
    awaitCanReturn ((fun t => stepAlloc t 0)^[middle] (engineStart 1)) false
        AwaitOutcome.viaSteadyChannel = true
    ∧ ∀ w ∈ ((fun t => stepAlloc t 0)^[middle] (engineStart 1)).workers,
        w.everHeldMiddle = true := by
  have hret : awaitCanReturn ((fun t => stepAlloc t 0)^[middle] (engineStart 1)) false
      AwaitOutcome.viaSteadyChannel = true := by
    rw [allocIter_closes]
    rfl
  exact ⟨hret,
    (C8_await_steady_state 1 _ AwaitOutcome.viaSteadyChannel
      (reaches_alloc_iter 0 (engineStart 1) middle) hret).2.2⟩
